import Mathlib

/-!
Shallow embedding of `format-ts-cli`:

* `src/src/formatter.js` (`createSingleFileFormatter.format`, `formatFile`) —
  span-edit application over a text buffer;
* `src/bin/format-ts.js` (`collectFiles`, `isTextFile`, `worker`, `run`,
  `parseArgs`) — traversal, filtering, the bounded-concurrency worker pool,
  mode handling and exit codes.

Text buffers are `List Char` (JavaScript string code units); `String.slice`
clamping is reflected by `List.take` / `List.drop`, which clamp the same way
for natural-number indices.
-/

namespace FormatTs

/-- A TypeScript `TextChange` (the spec's `SpanEdit`): replace the range
`[start, start + length)` of the original buffer with `newText`. -/
structure TextChange where
  start : Nat
  length : Nat
  newText : List Char
deriving Repr, DecidableEq

/-- One step of the edit loop body in `format()`:
`result = result.slice(0, start) + e.newText + result.slice(end)`.
`List.take`/`List.drop` clamp out-of-range indices exactly as `slice` does
for non-negative arguments. -/
def spliceEdit (res : List Char) (e : TextChange) : List Char :=
  res.take e.start ++ e.newText ++ res.drop (e.start + e.length)

/-- `createSingleFileFormatter.format`: if the edit list is empty return the
text; otherwise iterate `i = edits.length - 1` down to `0` applying each edit
to the working buffer (i.e. a left fold over the reversed input list).
The source does not sort the edits. -/
def format (text : List Char) (edits : List TextChange) : List Char :=
  if edits.isEmpty then text
  else (edits.reverse).foldl spliceEdit text

/-- Reference simultaneous application from the spec (§8 "build via direct
index slicing"), for edits listed in ascending-start order: keep the original
slice `[pos, e.start)`, emit the replacement, continue after the edit. -/
def simulFrom (orig : List Char) : Nat → List TextChange → List Char
  | pos, [] => orig.drop pos
  | pos, e :: es =>
    (orig.drop pos).take (e.start - pos) ++ e.newText ++ simulFrom orig (e.start + e.length) es

/-- Reference simultaneous application of an ascending-start edit list. -/
def simulApply (orig : List Char) (edits : List TextChange) : List Char :=
  simulFrom orig 0 edits

/-- Every edit range lies inside `[0, len]`. -/
def editsInBounds (len : Nat) (edits : List TextChange) : Bool :=
  edits.all (fun e => decide (e.start + e.length ≤ len))

/-- Two span edits occupy disjoint ranges of the original buffer. -/
def disjointSpans (e f : TextChange) : Bool :=
  decide (e.start + e.length ≤ f.start) || decide (f.start + f.length ≤ e.start)

/-- All edits in the list have pairwise disjoint ranges. -/
def pairwiseDisjoint : List TextChange → Bool
  | [] => true
  | e :: es => es.all (disjointSpans e) && pairwiseDisjoint es

/-- The edit list is sorted ascending by start, with non-overlapping ranges
(each edit starts at or after `pos` and ends before the next begins), and all
ranges end inside a buffer of length `len`. -/
def chainOk (len : Nat) : Nat → List TextChange → Bool
  | _, [] => true
  | pos, e :: es =>
    decide (pos ≤ e.start) && decide (e.start + e.length ≤ len) && chainOk len (e.start + e.length) es

/-- The range of `e` clamped to a buffer of length `len`, the way
`String.slice` clamps its arguments. -/
def clampEdit (len : Nat) (e : TextChange) : TextChange :=
  ⟨min e.start len, min (e.start + e.length) len - min e.start len, e.newText⟩

/-- Modelled from the spec (§4.1 "Failure mode"): an applier that fails with a
`MalformedEdit` condition when some edit range is out of bounds.  No such
check exists in the source; this definition exists only to be compared with
`format`. -/
def applyWithBoundsCheck (orig : List Char) (edits : List TextChange) : Option (List Char) :=
  if editsInBounds orig.length edits then some (format orig edits) else none

/-! Concrete fixtures for the edit-application claims. -/

/-- Fixture buffer `"abcd"`. -/
def c1Orig : List Char := ['a', 'b', 'c', 'd']

/-- Fixture edits in ascending-start order: replace `"a"` by `"XX"`, `"c"` by `"Y"`. -/
def c1Asc : List TextChange := [⟨0, 1, ['X', 'X']⟩, ⟨2, 1, ['Y']⟩]

/-- The same edit set permuted (descending-start input order). -/
def c1Perm : List TextChange := [⟨2, 1, ['Y']⟩, ⟨0, 1, ['X', 'X']⟩]

/-! Directory traversal: `collectFiles` in `src/bin/format-ts.js`.
Minimatch is an external library; matchers compiled from glob patterns are
modelled as opaque predicates `String → Bool` applied, as in the source, to
both the root-relative slash-joined path and the bare entry name. -/

/-- A directory entry as seen by `walk` (`fs.readdirSync` with file types). -/
inductive FsEntry where
  | file (name : String)
  | dir (name : String) (entries : List FsEntry)
deriving Repr

/-- Root-relative path of an entry: `path.relative(rootDir, fullPath)` with
separators normalized to `/`. -/
def joinRel (relDir name : String) : String :=
  if relDir = "" then name else relDir ++ "/" ++ name

/-- The loop body of `collectFiles.walk` over a directory's entry list,
collecting root-relative paths of matched files (the source pushes the
absolute `fullPath = rootDir/relPath`; we keep the relative part).
Faithful to the source: the exclusion guard
`if (excluded) { if (entry.isDirectory()) continue; }` skips only
directories, so a file entry always falls through to the include test even
when an exclude pattern matches it. -/
def walkList (incl : String → Bool) (excl : List (String → Bool)) :
    String → List FsEntry → List String
  | _, [] => []
  | relDir, FsEntry.file name :: rest =>
    (if incl (joinRel relDir name) || incl name then [joinRel relDir name] else []) ++
      walkList incl excl relDir rest
  | relDir, FsEntry.dir name entries :: rest =>
    if excl.any (fun m => m (joinRel relDir name) || m name) then
      walkList incl excl relDir rest
    else
      walkList incl excl (joinRel relDir name) entries ++ walkList incl excl relDir rest

/-- Fixture include matcher for the traversal claims: an include glob that
matches both fixture file names (as `**/*.ts` would). -/
def c2Include : String → Bool := fun s => decide (s = "keep.ts") || decide (s = "skip.ts")

/-- Fixture exclude matcher list: a single pattern matching exactly the file
name `skip.ts` (minimatch of the literal pattern `skip.ts` with `matchBase`). -/
def c2Exclude : List (String → Bool) := [fun s => s = "skip.ts"]

/-- Fixture directory: a root holding `keep.ts` and the excluded `skip.ts`. -/
def c2Tree : List FsEntry := [FsEntry.file "keep.ts", FsEntry.file "skip.ts"]

/-! The bounded-concurrency apply phase: `worker` in `src/bin/format-ts.js`.
A file as the worker observes it bundles the on-disk content together with
the behavior of the external collaborators on that file: whether the probe
reads succeed (`readable`), the raw bytes the probe sees (`bytes`), the
decoded text `formatFile` reads (`content`), and the oracle's answer
(`oracle`; `none` models `formatFile` throwing — an oracle error or an I/O
failure while reading/formatting). -/

/-- A file presented to the worker loop, with fixed oracle behavior. -/
structure WFile where
  path : String
  readable : Bool
  bytes : List Nat
  content : List Char
  oracle : Option (List TextChange)
deriving Repr, DecidableEq

/-- `isTextFile`: read up to 1024 bytes and reject on any null byte; any
open/read failure is caught and also yields `false`. -/
def isTextFile (f : WFile) : Bool :=
  f.readable && (f.bytes.take 1024).all (fun b => b != 0)

/-- The mutable run summary plus the observable side effects: counters, the
changed-path list, the `writeFileSync` calls performed, and the per-file
error reports (`console.error` in the worker's catch, recorded by path). -/
structure RunState where
  filesChecked : Nat
  filesChanged : Nat
  changedFiles : List String
  written : List (String × List Char)
  errors : List String
deriving Repr, DecidableEq

/-- The summary at the start of the apply phase. -/
def initState : RunState := ⟨0, 0, [], [], []⟩

/-- Componentwise combination of run summaries (counters add, logs append). -/
def addState (a b : RunState) : RunState :=
  ⟨a.filesChecked + b.filesChecked, a.filesChanged + b.filesChanged,
    a.changedFiles ++ b.changedFiles, a.written ++ b.written, a.errors ++ b.errors⟩

/-- One iteration of the worker loop for one claimed file, for mode flags
`dry`/`check` (both `false` means write mode).  Mirrors the source: skip
silently when the probe fails; on a `formatFile` throw, report and move on;
otherwise `filesChecked++`, and when the formatted text differs also
`filesChanged++`, record the path, and — only when neither `--dry` nor
`--check` — persist with `writeFileSync`.  The source increments
`filesChecked` before testing `changed`; the branches here are flattened but
perform the identical updates. -/
def stepFile (dry check : Bool) (st : RunState) (f : WFile) : RunState :=
  if isTextFile f then
    match f.oracle with
    | none => { st with errors := st.errors ++ [f.path] }
    | some edits =>
      if format f.content edits = f.content then
        { st with filesChecked := st.filesChecked + 1 }
      else if !dry && !check then
        { st with
            filesChecked := st.filesChecked + 1
            filesChanged := st.filesChanged + 1
            changedFiles := st.changedFiles ++ [f.path]
            written := st.written ++ [(f.path, format f.content edits)] }
      else
        { st with
            filesChecked := st.filesChecked + 1
            filesChanged := st.filesChanged + 1
            changedFiles := st.changedFiles ++ [f.path] }
  else st

/-- The whole apply phase over the materialized eligible file list in claim
order (the shared `index++` cursor hands out indices `0, 1, 2, …`). -/
def runFiles (dry check : Bool) (files : List WFile) : RunState :=
  files.foldl (stepFile dry check) initState

/-- The formatted text of `f` when the worker would count it as changed:
probe passes, the oracle answers, and the output differs from the original. -/
def formattedOf (f : WFile) : Option (List Char) :=
  if isTextFile f then
    match f.oracle with
    | none => none
    | some edits =>
      if format f.content edits = f.content then none else some (format f.content edits)
  else none

/-- The changed files in traversal order, paired with their formatted text —
exactly what write mode persists. -/
def changedOutputs (files : List WFile) : List (String × List Char) :=
  files.filterMap (fun f => (formattedOf f).map (fun t => (f.path, t)))

/-- Exit-code derivation after the apply phase (`run`, end): in `--dry` or
`--check` mode, `1` when any file changed and `0` otherwise; in write mode
the exit code is left at its default `0`. -/
def applyPhaseExit (dry check : Bool) (st : RunState) : Nat :=
  if dry || check then (if 0 < st.filesChanged then 1 else 0) else 0

/-- The shared state of the promise pool: the claim cursor `index` and the
run summary. -/
structure PoolState where
  cursor : Nat
  st : RunState
deriving Repr, DecidableEq

/-- One `worker()` call: its body contains no `await`, so on Node's
single-threaded event loop the entire `while (true)` loop runs to completion
synchronously — the worker claims `index++` repeatedly and processes each
claimed file until the cursor passes the end of the list. -/
def workerRun (dry check : Bool) (files : List WFile) (p : PoolState) : PoolState :=
  if h : p.cursor < files.length then
    workerRun dry check files ⟨p.cursor + 1, stepFile dry check p.st (files.get ⟨p.cursor, h⟩)⟩
  else p
termination_by files.length - p.cursor
decreasing_by simp; omega

/-- The apply phase with `workers` pool slots: the `for` loop calls
`worker()` once per slot, each call running synchronously to completion
before the next starts. -/
def runPool (dry check : Bool) (files : List WFile) : Nat → PoolState
  | 0 => ⟨0, initState⟩
  | n + 1 => workerRun dry check files (runPool dry check files n)

/-- The claim protocol in isolation, under an arbitrary interleaving: each
schedule event is one atomic `const i = index++` by some worker (identified
by a number), followed by the `i >= files.length` bounds test; an in-range
claim processes index `i`.  Returns the (worker, index) pairs processed. -/
def claimRun (n : Nat) : List Nat → Nat → List (Nat × Nat)
  | [], _ => []
  | w :: ws, cursor =>
    if cursor < n then (w, cursor) :: claimRun n ws (cursor + 1) else claimRun n ws (cursor + 1)

/-! Concrete fixtures for the pipeline claims. -/

/-- Fixture: a text file whose oracle reformats `"a  "` to `"a"` (changed). -/
def c9File : WFile := ⟨"a.ts", true, [97, 32, 32], ['a', ' ', ' '], some [⟨1, 2, []⟩]⟩

/-- Fixture: an already-formatted text file (empty edit set, unchanged). -/
def c9Clean : WFile := ⟨"b.ts", true, [98], ['b'], some []⟩

/-- Fixture file list for the determinism and mode claims. -/
def c9Files : List WFile := [c9File, c9Clean]

/-- Fixture: a text file whose `formatFile` call throws (oracle failure). -/
def c6Bad : WFile := ⟨"bad.ts", true, [120], ['x'], none⟩

/-- Fixture: a file the binary probe cannot read (`openSync`/`readSync` throws). -/
def c10File : WFile := ⟨"locked.ts", false, [], ['y'], some []⟩

/-! The command surface: `parseArgs` and the prologue of `run` in
`src/bin/format-ts.js`. -/

/-- The resolved option record built by `parseArgs`. -/
structure Options where
  dir : Option String
  includeGlob : String
  excludeGlobs : List String
  concurrency : Nat
  dry : Bool
  check : Bool
  silent : Bool
deriving Repr, DecidableEq

/-- The defaults `parseArgs` starts from. -/
def defaultOptions : Options :=
  ⟨none, "**/*.\x7bts,tsx,js\x7d", ["node_modules", "dist", "build", "coverage", ".git"], 8,
    false, false, false⟩

/-- What `parseArgs` returns on success. -/
structure ParseResult where
  opts : Options
  positionalPath : Option String
  showHelp : Bool
deriving Repr, DecidableEq

/-- `arg.startsWith("-")`. -/
def startsWithDash (s : String) : Bool :=
  match s.data with
  | ch :: _ => ch == '-'
  | [] => false

/-- The `--concurrency` value check: `Number(next)` must be an integer `> 0`.
`Number` is abstracted to decimal-natural parsing over the string's
characters; the claims depend only on positive integers being accepted and
zero, negative and non-numeric values being rejected. -/
def parsePositiveInt (s : String) : Option Nat :=
  if s.data ≠ [] ∧ s.data.all Char.isDigit then
    (fun n => if 0 < n then some n else none)
      (s.data.foldl (fun n ch => n * 10 + (ch.toNat - 48)) 0)
  else none

/-- `next.split(",").map(trim).filter(Boolean)` for `--exclude`. -/
def splitExcludes (s : String) : List String :=
  ((s.splitOn ",").map String.trim).filter (fun t => t != "")

/-- The argument loop of `parseArgs`: one case per `switch` arm, threading
the option record and the (first) positional path; every `throw` becomes an
`Except.error` with the source's message.  `args[++i]` being `undefined`
(off the end) or `""` is falsy, so both fail the `if (!next)` guard. -/
def parseLoop : List String → Options → Option String → Except String ParseResult
  | [], o, p => .ok ⟨o, p, false⟩
  | a :: rest, o, p =>
    if a = "-h" ∨ a = "--help" then .ok ⟨o, p, true⟩
    else if a = "--dir" then
      match rest with
      | [] => .error "--dir requires a value"
      | v :: rest' =>
        if v = "" then .error "--dir requires a value"
        else parseLoop rest' { o with dir := some v } p
    else if a = "--include" then
      match rest with
      | [] => .error "--include requires a value"
      | v :: rest' =>
        if v = "" then .error "--include requires a value"
        else parseLoop rest' { o with includeGlob := v } p
    else if a = "--exclude" then
      match rest with
      | [] => .error "--exclude requires a value"
      | v :: rest' =>
        if v = "" then .error "--exclude requires a value"
        else parseLoop rest' { o with excludeGlobs := splitExcludes v } p
    else if a = "--concurrency" then
      match rest with
      | [] => .error "--concurrency requires a value"
      | v :: rest' =>
        if v = "" then .error "--concurrency requires a value"
        else
          match parsePositiveInt v with
          | none => .error "--concurrency must be a positive integer"
          | some n => parseLoop rest' { o with concurrency := n } p
    else if a = "--dry" then parseLoop rest { o with dry := true } p
    else if a = "--check" then parseLoop rest { o with check := true } p
    else if a = "--silent" then parseLoop rest { o with silent := true } p
    else if startsWithDash a then .error ("Unknown option: " ++ a)
    else
      match p with
      | none => parseLoop rest o (some a)
      | some _ => .error ("Unexpected positional argument: " ++ a)

/-- `parseArgs(process.argv)` on the user arguments (after the two slots
`argv.slice(2)` removes). -/
def parseArgs (args : List String) : Except String ParseResult :=
  parseLoop args defaultOptions none

/-- Decidable equality of parse outcomes, so concrete runs can be checked. -/
instance : DecidableEq (Except String ParseResult)
  | .error a, .error b =>
    if h : a = b then isTrue (by rw [h]) else isFalse (fun hc => h (by cases hc; rfl))
  | .error _, .ok _ => isFalse (fun hc => by cases hc)
  | .ok _, .error _ => isFalse (fun hc => by cases hc)
  | .ok a, .ok b =>
    if h : a = b then isTrue (by rw [h]) else isFalse (fun hc => h (by cases hc; rfl))

/-- `rawTarget = targetFromPositional || targetFromFlag`. -/
def rawTarget (r : ParseResult) : Option String :=
  match r.positionalPath with
  | some p => some p
  | none => r.opts.dir

/-- What `fs.existsSync` / `statSync` report about the resolved target path. -/
inductive Target where
  | absent
  | dirTarget (entries : List FsEntry)
  | fileTarget (ext : String)
  | otherTarget

/-- The observable outcome of one CLI invocation: a usage/configuration
error before any traversal or formatting, the help screen, or a completed
apply phase with its summary and exit code. -/
inductive CliOutcome where
  | usageError (code : Nat)
  | helpShown
  | completed (st : RunState) (exitCode : Nat)
deriving Repr, DecidableEq

/-- The apply phase plus outcome derivation at the end of `run`. -/
def finishRun (o : Options) (files : List WFile) : CliOutcome :=
  .completed (runFiles o.dry o.check files)
    (applyPhaseExit o.dry o.check (runFiles o.dry o.check files))

/-- The decision sequence of `run`: parse (errors exit 2), help, require a
target (exit 2), resolve it on disk (missing or unusable: exit 2), then for
a directory root collect eligible files through the include/exclude matchers
(minimatch abstracted as the compilers `mmI`/`mmX` from pattern to
predicate), or for a single-file root apply the extension allow-list; run
the worker pool over the files `lookup` yields, and derive the exit code.
The empty-eligible-list early return leaves the exit code at `0`. -/
def runParsed (mmI mmX : String → String → Bool) (lookup : String → WFile)
    (target : Target) (r : ParseResult) : CliOutcome :=
  if r.showHelp then .helpShown
  else
    match rawTarget r with
    | none => .usageError 2
    | some raw =>
      match target with
      | .absent => .usageError 2
      | .otherTarget => .usageError 2
      | .dirTarget entries =>
        if (walkList (mmI r.opts.includeGlob) (r.opts.excludeGlobs.map mmX) "" entries).isEmpty
        then .completed initState 0
        else
          finishRun r.opts
            ((walkList (mmI r.opts.includeGlob) (r.opts.excludeGlobs.map mmX) "" entries).map
              lookup)
      | .fileTarget ext =>
        if ext = ".ts" ∨ ext = ".tsx" ∨ ext = ".js" then finishRun r.opts [lookup raw]
        else .usageError 2

/-- The whole invocation: parse errors exit `2` before anything else runs. -/
def runCli (mmI mmX : String → String → Bool) (lookup : String → WFile)
    (args : List String) (target : Target) : CliOutcome :=
  match parseArgs args with
  | .error _ => .usageError 2
  | .ok r => runParsed mmI mmX lookup target r

/-- Fixture matcher compiler matching nothing. -/
def mmNone : String → String → Bool := fun _ _ => false

/-- Fixture file store: every path resolves to the changed file `c9File`. -/
def lookupC9 : String → WFile := fun _ => c9File

end FormatTs

namespace FormatTs

/-- Helper: folding the edit loop body from the right over a chain-sorted,
in-bounds edit list reproduces the reference simultaneous application from
position `pos`. -/
theorem foldr_splice_eq_simul (orig : List Char) :
    ∀ (edits : List TextChange) (pos : Nat), chainOk orig.length pos edits = true →
      edits.foldr (fun e res => spliceEdit res e) orig = orig.take pos ++ simulFrom orig pos edits := by
  intro edits
  induction edits with
  | nil =>
    intro pos _
    simp [simulFrom]
  | cons e es ih =>
    intro pos h
    simp only [chainOk, Bool.and_eq_true, decide_eq_true_eq] at h
    obtain ⟨⟨h1, h2⟩, h3⟩ := h
    simp only [List.foldr_cons]
    rw [ih (e.start + e.length) h3]
    have hA : (orig.take (e.start + e.length)).length = e.start + e.length := by
      rw [List.length_take]; omega
    simp only [spliceEdit, simulFrom]
    have hdrop : ∀ (A B : List Char), A.length = e.start + e.length →
        List.drop (e.start + e.length) (A ++ B) = B := by
      intro A B hAB
      rw [← hAB, List.drop_left]
    rw [List.take_append_of_le_length (by omega), List.take_take,
      Nat.min_eq_left (Nat.le_add_right _ _), hdrop _ _ hA]
    have hsplit : orig.take e.start = orig.take pos ++ (orig.drop pos).take (e.start - pos) := by
      rw [← List.take_add, Nat.add_sub_cancel' h1]
    rw [hsplit]
    simp [List.append_assoc]

/-- C1 (counterexample): the applier does NOT sort the edits and is not
order-independent.  `c1Perm` is a permutation of the in-bounds, pairwise
non-overlapping edit set `c1Asc`, yet applying it yields a result different
from the reference simultaneous application of the set. -/
theorem format_not_order_independent :
    editsInBounds c1Orig.length c1Perm = true ∧
    pairwiseDisjoint c1Perm = true ∧
    List.Perm c1Asc c1Perm ∧
    format c1Orig c1Perm ≠ simulApply c1Orig c1Asc := by
  decide

/-- C1 (amended): when the edit list arrives sorted in ascending-start order
with pairwise non-overlapping, in-bounds ranges — the order in which the
TypeScript language service delivers it — applying the edits back-to-front in
reverse input order equals the reference simultaneous application. -/
theorem format_sorted_eq_simulApply (orig : List Char) (edits : List TextChange)
    (h : chainOk orig.length 0 edits = true) :
    format orig edits = simulApply orig edits := by
  cases edits with
  | nil => simp [format, simulApply, simulFrom]
  | cons e es =>
    unfold format
    rw [if_neg (by simp)]
    rw [List.foldl_reverse, foldr_splice_eq_simul orig (e :: es) 0 h]
    simp [simulApply]

/-- C1 (witness for `format_sorted_eq_simulApply`). -/
theorem format_sorted_eq_simulApply_witness :
    chainOk c1Orig.length 0 c1Asc = true ∧ format c1Orig c1Asc = simulApply c1Orig c1Asc :=
  ⟨by decide, format_sorted_eq_simulApply c1Orig c1Asc (by decide)⟩

/-- C3 (counterexample): an edit whose range `[5, 8)` lies outside the
two-character buffer `"ab"` does not make the applier fail: `slice` clamps the
range and `format` returns `"abX"`, while the spec-modelled checked applier
reports the `MalformedEdit` condition (`none`) on the same input. -/
theorem format_out_of_bounds_no_failure :
    format ['a', 'b'] [⟨5, 3, ['X']⟩] = ['a', 'b', 'X'] ∧
    applyWithBoundsCheck ['a', 'b'] [⟨5, 3, ['X']⟩] = none := by
  decide

/-- C3 (amended): an out-of-bounds edit range is not detected or rejected;
`slice` clamps both endpoints to the buffer, so applying any edit is the same
as applying its range-clamped counterpart.  No `MalformedEdit` condition
exists in the code. -/
theorem spliceEdit_eq_clamped (res : List Char) (e : TextChange) :
    spliceEdit res e = spliceEdit res (clampEdit res.length e) := by
  unfold spliceEdit clampEdit
  simp only
  have htake : res.take (min e.start res.length) = res.take e.start := by
    rcases Nat.le_total e.start res.length with h | h
    · rw [Nat.min_eq_left h]
    · rw [Nat.min_eq_right h, List.take_length, List.take_of_length_le h]
  have hidx : min e.start res.length + (min (e.start + e.length) res.length - min e.start res.length) =
      min (e.start + e.length) res.length := by omega
  have hdrop : res.drop (min (e.start + e.length) res.length) = res.drop (e.start + e.length) := by
    rcases Nat.le_total (e.start + e.length) res.length with h | h
    · rw [Nat.min_eq_left h]
    · rw [Nat.min_eq_right h, List.drop_length, List.drop_eq_nil_of_le h]
  rw [htake, hidx, hdrop]

/-- C8: applying an empty `EditSet` returns the original text itself — the
fast path `if (!edits || edits.length === 0) return text` makes `format` the
identity on every buffer, so "unchanged" is exact content equality. -/
theorem format_nil_eq_id (text : List Char) : format text [] = text := rfl

/-- C2 (code evaluated at the failing input): the file `skip.ts` matches the
(sole) exclude matcher, yet `walk` still lists it as eligible — the exclusion
guard in the source prunes only directories, so an excluded file that matches
the include glob is collected anyway. -/
theorem walkList_lists_excluded_file :
    (c2Exclude.any fun m => m "skip.ts" || m "skip.ts") = true ∧
    c2Include "skip.ts" = true ∧
    walkList c2Include c2Exclude "" c2Tree = ["keep.ts", "skip.ts"] := by
  refine ⟨by simp [c2Exclude], by simp [c2Include], ?_⟩
  simp [walkList, c2Tree, c2Include, c2Exclude, joinRel]

/-! Worker-pipeline lemmas: the per-file step is a state-independent delta
added onto the shared summary, so the fold over the file list decomposes. -/

/-- Helper: `addState` is associative. -/
theorem addState_assoc (a b c : RunState) :
    addState (addState a b) c = addState a (addState b c) := by
  simp [addState, Nat.add_assoc, List.append_assoc]

/-- Helper: `initState` is a right unit for `addState`. -/
theorem addState_initState (a : RunState) : addState a initState = a := by
  cases a; simp [addState, initState]

/-- Helper: one worker iteration only appends/increments: it equals the
incoming summary combined with a per-file delta computed from scratch. -/
theorem stepFile_delta (d c : Bool) (st : RunState) (f : WFile) :
    stepFile d c st f = addState st (stepFile d c initState f) := by
  unfold stepFile
  cases hT : isTextFile f
  · simp [addState_initState]
  · cases ho : f.oracle with
    | none => simp [addState, initState]
    | some edits =>
      by_cases hc : format f.content edits = f.content
      · simp [hc, addState, initState]
      · cases d <;> cases c <;> simp [hc, addState, initState]

/-- Helper: the worker fold from any starting summary equals that summary
combined with the run over the same files from the empty summary. -/
theorem foldl_stepFile_eq (d c : Bool) :
    ∀ (l : List WFile) (st : RunState),
      l.foldl (stepFile d c) st = addState st (runFiles d c l) := by
  intro l
  induction l with
  | nil => intro st; simp [runFiles, addState_initState]
  | cons f l ih =>
    intro st
    have hr : runFiles d c (f :: l) = addState (stepFile d c initState f) (runFiles d c l) := by
      show (f :: l).foldl (stepFile d c) initState = _
      rw [List.foldl_cons]
      exact ih (stepFile d c initState f)
    rw [List.foldl_cons, ih (stepFile d c st f), stepFile_delta d c st f, addState_assoc, hr]

/-- Helper: peel one file off the run. -/
theorem runFiles_cons (d c : Bool) (f : WFile) (l : List WFile) :
    runFiles d c (f :: l) = addState (stepFile d c initState f) (runFiles d c l) := by
  show (f :: l).foldl (stepFile d c) initState = _
  rw [List.foldl_cons]
  exact foldl_stepFile_eq d c l _

/-- Helper: the run over a concatenation is the combination of the runs. -/
theorem runFiles_append (d c : Bool) (l1 l2 : List WFile) :
    runFiles d c (l1 ++ l2) = addState (runFiles d c l1) (runFiles d c l2) := by
  show (l1 ++ l2).foldl (stepFile d c) initState = _
  rw [List.foldl_append]
  exact foldl_stepFile_eq d c l2 _

/-- Helper: what one file contributes to the write log. -/
theorem stepFile_init_written (d c : Bool) (f : WFile) :
    (stepFile d c initState f).written =
      if !d && !c then ((formattedOf f).map (fun t => (f.path, t))).toList else [] := by
  unfold stepFile formattedOf
  cases hT : isTextFile f
  · cases d <;> cases c <;> simp [initState]
  · cases ho : f.oracle with
    | none => cases d <;> cases c <;> simp [initState]
    | some edits =>
      by_cases hc : format f.content edits = f.content
      · cases d <;> cases c <;> simp [hc, initState]
      · cases d <;> cases c <;> simp [hc, initState]

/-- Helper: what one file contributes to the changed-path list. -/
theorem stepFile_init_changedFiles (d c : Bool) (f : WFile) :
    (stepFile d c initState f).changedFiles =
      ((formattedOf f).map (fun _ => f.path)).toList := by
  unfold stepFile formattedOf
  cases hT : isTextFile f
  · simp [initState]
  · cases ho : f.oracle with
    | none => simp [initState]
    | some edits =>
      by_cases hc : format f.content edits = f.content
      · simp [hc, initState]
      · cases d <;> cases c <;> simp [hc, initState]

/-- Helper: the write log of a whole run — empty in the read-only modes,
exactly the changed outputs in write mode. -/
theorem runFiles_written (d c : Bool) (l : List WFile) :
    (runFiles d c l).written = if !d && !c then changedOutputs l else [] := by
  induction l with
  | nil => cases d <;> cases c <;> simp [runFiles, initState, changedOutputs]
  | cons f l ih =>
    have hw : (runFiles d c (f :: l)).written =
        (stepFile d c initState f).written ++ (runFiles d c l).written := by
      rw [runFiles_cons]; rfl
    have hco : changedOutputs (f :: l) =
        ((formattedOf f).map (fun t => (f.path, t))).toList ++ changedOutputs l := by
      cases hf : formattedOf f <;> simp [changedOutputs, List.filterMap_cons, hf]
    rw [hw, ih, stepFile_init_written, hco]
    cases d <;> cases c <;> simp

/-- Helper: the changed-path list of a whole run is the traversal-order list
of changed files, in every mode. -/
theorem runFiles_changedFiles (d c : Bool) (l : List WFile) :
    (runFiles d c l).changedFiles = (changedOutputs l).map Prod.fst := by
  induction l with
  | nil => simp [runFiles, initState, changedOutputs]
  | cons f l ih =>
    have hw : (runFiles d c (f :: l)).changedFiles =
        (stepFile d c initState f).changedFiles ++ (runFiles d c l).changedFiles := by
      rw [runFiles_cons]; rfl
    have hco : changedOutputs (f :: l) =
        ((formattedOf f).map (fun t => (f.path, t))).toList ++ changedOutputs l := by
      cases hf : formattedOf f <;> simp [changedOutputs, List.filterMap_cons, hf]
    rw [hw, ih, stepFile_init_changedFiles, hco]
    cases hf : formattedOf f <;> simp [hf]

/-- Helper: `--dry` and `--check` drive the identical worker step: the mode
flags are only ever consulted as `!dry && !check`. -/
theorem stepFile_readOnly_eq (st : RunState) (f : WFile) :
    stepFile true false st f = stepFile false true st f := by
  unfold stepFile
  cases hT : isTextFile f
  · rfl
  · cases ho : f.oracle with
    | none => rfl
    | some edits => by_cases hc : format f.content edits = f.content <;> simp [hc]

/-- Helper: a single `worker()` call drains the claim cursor from `k` to the
end of the list, folding the per-file step over the unclaimed suffix. -/
theorem workerRun_eq (d c : Bool) (files : List WFile) :
    ∀ (n k : Nat) (st : RunState), files.length - k = n →
      workerRun d c files ⟨k, st⟩ =
        ⟨max k files.length, (files.drop k).foldl (stepFile d c) st⟩ := by
  intro n
  induction n with
  | zero =>
    intro k st hk
    have hge : ¬ k < files.length := by omega
    rw [workerRun]
    dsimp only
    rw [dif_neg hge, Nat.max_eq_left (by omega), List.drop_eq_nil_of_le (by omega)]
    rfl
  | succ n ih =>
    intro k st hk
    have hlt : k < files.length := by omega
    rw [workerRun]
    dsimp only
    rw [dif_pos hlt, ih (k + 1) (stepFile d c st (files.get ⟨k, hlt⟩)) (by omega)]
    have h1 : max (k + 1) files.length = max k files.length := by omega
    have h2 : files.drop k = files.get ⟨k, hlt⟩ :: files.drop (k + 1) :=
      List.drop_eq_getElem_cons hlt
    rw [h1, h2, List.foldl_cons]

/-- Helper: any pool with at least one worker finishes with the cursor at the
end of the list and the summary of the sequential run: the first `worker()`
call exhausts the list synchronously and every later one returns at once. -/
theorem runPool_eq (d c : Bool) (files : List WFile) :
    ∀ n, 1 ≤ n → runPool d c files n = ⟨files.length, runFiles d c files⟩ := by
  intro n hn
  induction n with
  | zero => omega
  | succ m ih =>
    show workerRun d c files (runPool d c files m) = _
    rcases Nat.eq_zero_or_pos m with h0 | hm
    · subst h0
      show workerRun d c files ⟨0, initState⟩ = _
      rw [workerRun_eq d c files (files.length - 0) 0 initState rfl,
        Nat.max_eq_right (Nat.zero_le _), List.drop_zero]
      rfl
    · rw [ih hm, workerRun_eq d c files (files.length - files.length) files.length _ rfl,
        Nat.max_self, List.drop_length]
      rfl

/-- C4: with a fixed file set and fixed oracle behavior, `--dry` and
`--check` runs produce identical summaries (counters, changed-path list,
error reports) and perform no `writeFileSync` call; only write mode persists,
and it persists exactly the changed files with their formatted text. -/
theorem dryRun_check_equivalent (files : List WFile) :
    runFiles true false files = runFiles false true files ∧
    (runFiles true false files).written = [] ∧
    (runFiles false true files).written = [] ∧
    (runFiles false false files).written = changedOutputs files := by
  refine ⟨?_, ?_, ?_, ?_⟩
  · show files.foldl (stepFile true false) initState = files.foldl (stepFile false true) initState
    suffices h : ∀ st, files.foldl (stepFile true false) st = files.foldl (stepFile false true) st
      from h _
    induction files with
    | nil => intro st; rfl
    | cons f l ih => intro st; rw [List.foldl_cons, List.foldl_cons, stepFile_readOnly_eq, ih]
  · simp [runFiles_written]
  · simp [runFiles_written]
  · simp [runFiles_written]

/-- C6: a per-file failure (`formatFile` throwing: oracle error or read
failure) on a probed text file is caught and recorded with that file's path,
contributes nothing to `filesChecked`, `filesChanged`, the changed-path list
or the writes, and removing the failing file from the list leaves every other
observable of the run — including the final exit code — unchanged. -/
theorem per_file_failure_isolated (d c : Bool) (st : RunState) (f : WFile)
    (l1 l2 : List WFile) (hT : isTextFile f = true) (ho : f.oracle = none) :
    stepFile d c st f = { st with errors := st.errors ++ [f.path] } ∧
    (runFiles d c (l1 ++ f :: l2)).filesChecked = (runFiles d c (l1 ++ l2)).filesChecked ∧
    (runFiles d c (l1 ++ f :: l2)).filesChanged = (runFiles d c (l1 ++ l2)).filesChanged ∧
    (runFiles d c (l1 ++ f :: l2)).changedFiles = (runFiles d c (l1 ++ l2)).changedFiles ∧
    (runFiles d c (l1 ++ f :: l2)).written = (runFiles d c (l1 ++ l2)).written ∧
    applyPhaseExit d c (runFiles d c (l1 ++ f :: l2)) =
      applyPhaseExit d c (runFiles d c (l1 ++ l2)) := by
  have hstep : ∀ s : RunState, stepFile d c s f = { s with errors := s.errors ++ [f.path] } := by
    intro s
    unfold stepFile
    rw [hT, ho]
    rfl
  have hdelta : stepFile d c initState f = ⟨0, 0, [], [], [f.path]⟩ := by
    rw [hstep initState]; rfl
  have hsplit : runFiles d c (l1 ++ f :: l2) =
      addState (runFiles d c l1) (addState ⟨0, 0, [], [], [f.path]⟩ (runFiles d c l2)) := by
    rw [runFiles_append, runFiles_cons, hdelta]
  have hns : runFiles d c (l1 ++ l2) =
      addState (runFiles d c l1) (runFiles d c l2) := runFiles_append d c l1 l2
  refine ⟨hstep st, ?_, ?_, ?_, ?_, ?_⟩ <;>
    rw [hsplit, hns] <;> simp [addState, applyPhaseExit]

/-- C6 (witness for `per_file_failure_isolated`). -/
theorem per_file_failure_isolated_witness :
    isTextFile c6Bad = true ∧ c6Bad.oracle = none ∧
    (stepFile true false initState c6Bad =
        { initState with errors := initState.errors ++ [c6Bad.path] } ∧
      (runFiles true false ([c9File] ++ c6Bad :: [c9Clean])).filesChecked =
        (runFiles true false ([c9File] ++ [c9Clean])).filesChecked ∧
      (runFiles true false ([c9File] ++ c6Bad :: [c9Clean])).filesChanged =
        (runFiles true false ([c9File] ++ [c9Clean])).filesChanged ∧
      (runFiles true false ([c9File] ++ c6Bad :: [c9Clean])).changedFiles =
        (runFiles true false ([c9File] ++ [c9Clean])).changedFiles ∧
      (runFiles true false ([c9File] ++ c6Bad :: [c9Clean])).written =
        (runFiles true false ([c9File] ++ [c9Clean])).written ∧
      applyPhaseExit true false (runFiles true false ([c9File] ++ c6Bad :: [c9Clean])) =
        applyPhaseExit true false (runFiles true false ([c9File] ++ [c9Clean]))) :=
  ⟨by decide, by decide,
    per_file_failure_isolated true false initState c6Bad [c9File] [c9Clean]
      (by decide) (by decide)⟩

/-- Helper: the claim protocol hands out the indices `cursor, cursor + 1, …`
in order, independent of which worker performs each claim. -/
theorem claimRun_map_snd (n : Nat) :
    ∀ (ws : List Nat) (cursor : Nat), n - cursor ≤ ws.length →
      (claimRun n ws cursor).map Prod.snd = List.range' cursor (n - cursor) := by
  intro ws
  induction ws with
  | nil =>
    intro cursor h
    simp only [List.length_nil, Nat.le_zero] at h
    rw [claimRun, h]
    rfl
  | cons w ws ih =>
    intro cursor h
    by_cases hlt : cursor < n
    · rw [claimRun, if_pos hlt, List.map_cons, ih (cursor + 1) (by simp at h ⊢; omega)]
      have hn : n - cursor = (n - (cursor + 1)) + 1 := by omega
      rw [hn, List.range'_succ cursor (n - (cursor + 1)) 1]
    · rw [claimRun, if_neg hlt, ih (cursor + 1) (by simp at h ⊢; omega)]
      have h0 : n - cursor = 0 := by omega
      have h1 : n - (cursor + 1) = 0 := by omega
      rw [h0, h1]
      rfl

/-- C7: under any interleaving of claim events by any set of workers, as long
as enough claims occur (each worker loops until the cursor passes the end),
the processed indices over the `n`-element eligible list are exactly
`0, …, n - 1`: every index is processed, each exactly once, by exactly one
worker — the atomic `index++` claim admits no duplicate and no skip. -/
theorem claim_cursor_exclusive (n : Nat) (ws : List Nat) (h : n ≤ ws.length) :
    (claimRun n ws 0).map Prod.snd = List.range n ∧
    ∀ i, i < n → ((claimRun n ws 0).map Prod.snd).count i = 1 := by
  have hmap : (claimRun n ws 0).map Prod.snd = List.range n := by
    rw [claimRun_map_snd n ws 0 (by omega), Nat.sub_zero, List.range_eq_range' n]
  refine ⟨hmap, fun i hi => ?_⟩
  rw [hmap]
  exact List.count_eq_one_of_mem (List.nodup_range n) (List.mem_range.mpr hi)

/-- C7 (witness for `claim_cursor_exclusive`). -/
theorem claim_cursor_exclusive_witness :
    3 ≤ ([0, 1, 0, 1] : List Nat).length ∧
    ((claimRun 3 [0, 1, 0, 1] 0).map Prod.snd = List.range 3 ∧
      ∀ i, i < 3 → ((claimRun 3 [0, 1, 0, 1] 0).map Prod.snd).count i = 1) :=
  ⟨by decide, claim_cursor_exclusive 3 [0, 1, 0, 1] (by decide)⟩

/-- C9: for a fixed eligible file list and fixed oracle behavior the run is
deterministic across concurrency settings: any two pools with at least one
worker produce the same final pool state — hence the same `filesChecked`,
`filesChanged` and changed-path list — and the changed-path list is exactly
the traversal-order eligible list restricted to changed files.  Worker bodies
contain no `await`, so on the single-threaded event loop each `worker()` call
runs its claim loop to completion before the next starts. -/
theorem run_deterministic_across_concurrency (d c : Bool) (files : List WFile)
    (w w' : Nat) (h : 1 ≤ w) (h' : 1 ≤ w') :
    runPool d c files w = runPool d c files w' ∧
    (runPool d c files w).st = runFiles d c files ∧
    (runPool d c files w).st.changedFiles = (changedOutputs files).map Prod.fst := by
  rw [runPool_eq d c files w h, runPool_eq d c files w' h']
  exact ⟨rfl, rfl, runFiles_changedFiles d c files⟩

/-- C9 (witness for `run_deterministic_across_concurrency`). -/
theorem run_deterministic_across_concurrency_witness :
    1 ≤ 1 ∧ 1 ≤ 8 ∧
    (runPool false true c9Files 1 = runPool false true c9Files 8 ∧
      (runPool false true c9Files 1).st = runFiles false true c9Files ∧
      (runPool false true c9Files 1).st.changedFiles = (changedOutputs c9Files).map Prod.fst) :=
  ⟨by decide, by decide,
    run_deterministic_across_concurrency false true c9Files 1 8 (by decide) (by decide)⟩

/-- C10: a file whose probe read fails is treated exactly like a binary file:
`isTextFile` catches the exception and returns `false`, and the worker's
`continue` leaves every part of the run summary untouched — no counter, no
changed-path entry, no write, and no error report.  The same file with a
readable null-byte prefix is rejected the same way. -/
theorem probe_failure_silently_skipped (d c : Bool) (st : RunState) (f : WFile)
    (h : f.readable = false) :
    isTextFile f = false ∧
    stepFile d c st f = st ∧
    isTextFile { f with readable := true, bytes := 0 :: f.bytes } = false ∧
    stepFile d c st { f with readable := true, bytes := 0 :: f.bytes } = st := by
  have hT : isTextFile f = false := by unfold isTextFile; rw [h]; rfl
  have hB : isTextFile { f with readable := true, bytes := 0 :: f.bytes } = false := by
    unfold isTextFile
    simp [List.take_cons]
  refine ⟨hT, ?_, hB, ?_⟩
  · unfold stepFile; rw [hT]; rfl
  · unfold stepFile; rw [hB]; rfl

/-- C5: after the apply phase, write mode always exits `0`; in `--dry` or
`--check` the exit code is `1` exactly when `filesChanged > 0` and `0`
otherwise, and is never the usage code `2`; every usage/configuration error
(parse failure — unknown flag, invalid concurrency, missing option value —,
missing target, nonexistent target path) yields `.usageError 2` regardless
of the file system and oracle behavior, i.e. before any traversal or
formatting; and every completed run's exit code is the apply-phase
derivation for the parsed mode flags. -/
theorem cli_exit_code_contract (mmI mmX : String → String → Bool) (lookup : String → WFile)
    (args : List String) (target : Target) :
    (∀ st : RunState, applyPhaseExit false false st = 0) ∧
    (∀ (d c : Bool) (st : RunState), (d || c) = true →
      applyPhaseExit d c st = if 0 < st.filesChanged then 1 else 0) ∧
    (∀ (d c : Bool) (st : RunState), applyPhaseExit d c st ≠ 2) ∧
    (∀ e, parseArgs args = Except.error e →
      runCli mmI mmX lookup args target = CliOutcome.usageError 2) ∧
    (∀ r, parseArgs args = Except.ok r → r.showHelp = false → rawTarget r = none →
      runCli mmI mmX lookup args target = CliOutcome.usageError 2) ∧
    (∀ r raw, parseArgs args = Except.ok r → r.showHelp = false → rawTarget r = some raw →
      runCli mmI mmX lookup args Target.absent = CliOutcome.usageError 2) ∧
    (∀ r st code, parseArgs args = Except.ok r →
      runCli mmI mmX lookup args target = CliOutcome.completed st code →
      code = applyPhaseExit r.opts.dry r.opts.check st) := by
  refine ⟨fun st => rfl, ?_, ?_, ?_, ?_, ?_, ?_⟩
  · intro d c st h
    unfold applyPhaseExit
    rw [h]
    rfl
  · intro d c st
    unfold applyPhaseExit
    by_cases h : (d || c) = true
    · rw [if_pos h]
      by_cases h2 : 0 < st.filesChanged
      · rw [if_pos h2]; omega
      · rw [if_neg h2]; omega
    · rw [if_neg h]; omega
  · intro e he
    unfold runCli
    rw [he]
  · intro r hok hh hraw
    unfold runCli
    rw [hok]
    show runParsed mmI mmX lookup target r = CliOutcome.usageError 2
    unfold runParsed
    simp only [hh, Bool.false_eq_true, if_false, hraw]
  · intro r raw hok hh hraw
    unfold runCli
    rw [hok]
    show runParsed mmI mmX lookup Target.absent r = CliOutcome.usageError 2
    unfold runParsed
    simp only [hh, Bool.false_eq_true, if_false, hraw]
  · intro r st code hok hrun
    unfold runCli at hrun
    rw [hok] at hrun
    replace hrun : runParsed mmI mmX lookup target r = CliOutcome.completed st code := hrun
    unfold runParsed at hrun
    by_cases hh : r.showHelp
    · rw [if_pos hh] at hrun
      exact absurd hrun (by simp)
    · rw [if_neg hh] at hrun
      cases hraw : rawTarget r with
      | none => rw [hraw] at hrun; exact absurd hrun (by simp)
      | some raw =>
        rw [hraw] at hrun
        cases target with
        | absent => exact absurd hrun (by simp)
        | otherTarget => exact absurd hrun (by simp)
        | dirTarget entries =>
          dsimp only at hrun
          by_cases he :
              (walkList (mmI r.opts.includeGlob) (r.opts.excludeGlobs.map mmX) "" entries).isEmpty
          · rw [if_pos he] at hrun
            obtain ⟨h1, h2⟩ := CliOutcome.completed.inj hrun
            rw [← h2, ← h1]
            unfold applyPhaseExit
            by_cases hm : (r.opts.dry || r.opts.check) = true
            · rw [if_pos hm]; rfl
            · rw [if_neg hm]
          · rw [if_neg he] at hrun
            obtain ⟨h1, h2⟩ := CliOutcome.completed.inj hrun
            rw [← h2, ← h1]
        | fileTarget ext =>
          dsimp only at hrun
          by_cases hext : ext = ".ts" ∨ ext = ".tsx" ∨ ext = ".js"
          · rw [if_pos hext] at hrun
            obtain ⟨h1, h2⟩ := CliOutcome.completed.inj hrun
            rw [← h2, ← h1]
          · rw [if_neg hext] at hrun
            exact absurd hrun (by simp)

/-- C5 (witness for `cli_exit_code_contract`). -/
theorem cli_exit_code_contract_witness :
    (parseArgs ["--bogus"] = Except.error "Unknown option: --bogus" ∧
      runCli mmNone mmNone lookupC9 ["--bogus"] (Target.dirTarget []) =
        CliOutcome.usageError 2) ∧
    (parseArgs ["--concurrency", "0", "proj"] =
        Except.error "--concurrency must be a positive integer" ∧
      runCli mmNone mmNone lookupC9 ["--concurrency", "0", "proj"] (Target.dirTarget []) =
        CliOutcome.usageError 2) ∧
    runCli mmNone mmNone lookupC9 ["--dry"] (Target.dirTarget []) = CliOutcome.usageError 2 ∧
    runCli mmNone mmNone lookupC9 ["proj", "--check"] Target.absent = CliOutcome.usageError 2 ∧
    applyPhaseExit false false ⟨3, 2, ["a", "b"], [], []⟩ = 0 ∧
    applyPhaseExit false true ⟨3, 2, ["a", "b"], [], []⟩ = (if 0 < 2 then 1 else 0) ∧
    applyPhaseExit false true ⟨3, 2, ["a", "b"], [], []⟩ ≠ 2 ∧
    (1 : Nat) = applyPhaseExit false true ⟨1, 1, ["a.ts"], [], []⟩ := by
  refine ⟨⟨by decide, ?_⟩, ⟨by decide, ?_⟩, ?_, ?_, ?_, ?_, ?_, ?_⟩
  · exact (cli_exit_code_contract mmNone mmNone lookupC9 ["--bogus"]
      (Target.dirTarget [])).2.2.2.1 "Unknown option: --bogus" (by decide)
  · exact (cli_exit_code_contract mmNone mmNone lookupC9 ["--concurrency", "0", "proj"]
      (Target.dirTarget [])).2.2.2.1 "--concurrency must be a positive integer" (by decide)
  · exact (cli_exit_code_contract mmNone mmNone lookupC9 ["--dry"]
      (Target.dirTarget [])).2.2.2.2.1 ⟨{ defaultOptions with dry := true }, none, false⟩
      (by decide) rfl rfl
  · exact (cli_exit_code_contract mmNone mmNone lookupC9 ["proj", "--check"]
      Target.absent).2.2.2.2.2.1 ⟨{ defaultOptions with check := true }, some "proj", false⟩
      "proj" (by decide) rfl rfl
  · exact (cli_exit_code_contract mmNone mmNone lookupC9 ["proj", "--check"]
      Target.absent).1 ⟨3, 2, ["a", "b"], [], []⟩
  · exact (cli_exit_code_contract mmNone mmNone lookupC9 ["proj", "--check"]
      Target.absent).2.1 false true ⟨3, 2, ["a", "b"], [], []⟩ rfl
  · exact (cli_exit_code_contract mmNone mmNone lookupC9 ["proj", "--check"]
      Target.absent).2.2.1 false true ⟨3, 2, ["a", "b"], [], []⟩
  · exact (cli_exit_code_contract mmNone mmNone lookupC9 ["proj", "--check"]
      (Target.fileTarget ".ts")).2.2.2.2.2.2
      ⟨{ defaultOptions with check := true }, some "proj", false⟩
      ⟨1, 1, ["a.ts"], [], []⟩ 1 (by decide) (by decide)

/-- C10 (witness for `probe_failure_silently_skipped`). -/
theorem probe_failure_silently_skipped_witness :
    c10File.readable = false ∧
    (isTextFile c10File = false ∧
      stepFile false false initState c10File = initState ∧
      isTextFile { c10File with readable := true, bytes := 0 :: c10File.bytes } = false ∧
      stepFile false false initState { c10File with readable := true, bytes := 0 :: c10File.bytes } =
        initState) :=
  ⟨by decide, probe_failure_silently_skipped false false initState c10File (by decide)⟩

end FormatTs
